import Mathlib

/-!
# fsreadiness: a filesystem readiness sidecar

A shallow embedding of `main.go`: the freshness tracker (`ts`, `setts`, `ready`),
the `/ready` handler, the two check functions, the start-up validation and the
probe loop, followed by the properties established about them.

Conventions.
* `int64` values are integers; an arithmetic result is reduced with `wrapInt64`.
* A `float64` flag value is a significand and a binary exponent, or a non-finite value.
* An instant is a count of nanoseconds; `time.Duration` is an `int64` count of nanoseconds.
-/

namespace Fsreadiness

/-! ## Machine integers -/

/-- Smallest `int64`. -/
def minInt64 : Int := -9223372036854775808

/-- Largest `int64`. -/
def maxInt64 : Int := 9223372036854775807

/-- Two's complement reduction of an integer to the `int64` range. -/
def wrapInt64 (x : Int) : Int := (x + 9223372036854775808) % 18446744073709551616 - 9223372036854775808

/-- The 64-bit pattern of an `int64`. -/
def toBits64 (x : Int) : Nat := (x % 18446744073709551616).toNat

/-- The `int64` denoted by a 64-bit pattern. -/
def ofBits64 (n : Nat) : Int := wrapInt64 (n : Int)

/-- Go's `x & y` on `int64`. -/
def and64 (x y : Int) : Int := ofBits64 (toBits64 x &&& toBits64 y)

/-- Go's unary `^x` on `int64`. -/
def not64 (x : Int) : Int := ofBits64 (18446744073709551615 - toBits64 x)

/-! ## `float64` flag values and their conversion to `int64` -/

/-- A `float64`: a finite value `m * 2 ^ e` (signed significand `m`, binary exponent `e`),
an infinity or a NaN. -/
inductive Float64 where
  | finite (m : Int) (e : Int)
  | posInf
  | negInf
  | nan

/-- The rational number a finite `float64` denotes (`0` stands in for the non-finite ones). -/
def Float64.toRat : Float64 → ℚ
  | .finite m e => (m : ℚ) * (2 : ℚ) ^ e
  | _ => 0

/-- Truncation of `m * 2 ^ e` toward zero. -/
def truncDyadic (m e : Int) : Int :=
  if 0 ≤ e then m * 2 ^ e.toNat else Int.tdiv m (2 ^ (-e).toNat)

/-- Go's conversion `int64(x)` (here `time.Duration(x)`) of a `float64`: the fraction is
discarded; when the truncated value does not fit, or `x` is not finite, the language leaves
the result to the implementation, which is the parameter `undef`. -/
def float64ToInt64 (undef : Int) : Float64 → Int
  | .finite m e =>
    if minInt64 ≤ truncDyadic m e ∧ truncDyadic m e ≤ maxInt64 then truncDyadic m e
    else wrapInt64 undef
  | _ => wrapInt64 undef

/-! ## Time -/

/-- The constant `time.Second`, in nanoseconds. -/
def second : Int := 1000000000

/-- The expression `time.Duration(x) * time.Second` for a `float64` flag value `x`. -/
def secondsToDuration (undef : Int) (x : Float64) : Int :=
  wrapInt64 (float64ToInt64 undef x * second)

/-- A `time.Time`: the wall-clock instant in nanoseconds since the Unix epoch and, when the
value came from `time.Now`, the monotonic clock reading taken with it. -/
structure Time where
  wall : Int
  mono : Option Int
  deriving DecidableEq, Repr

/-- The zero `time.Time`: January 1 of year 1, 00:00 UTC, without a monotonic reading. -/
def zeroTime : Time := ⟨-62135596800 * second, none⟩

/-- The two clocks of the system at one moment, in nanoseconds. -/
structure Clock where
  wall : Int
  mono : Int
  deriving DecidableEq, Repr

/-- The function `time.Now`. -/
def now (clk : Clock) : Time := ⟨clk.wall, some clk.mono⟩

/-- A difference of instants as a `time.Duration`: it saturates at the `int64` bounds. -/
def saturate (d : Int) : Int :=
  if d < minInt64 then minInt64 else if maxInt64 < d then maxInt64 else d

/-- The function `time.Since`: on the monotonic clock when `t` carries a reading, on the wall
clock otherwise. -/
def since (t : Time) (clk : Clock) : Int :=
  match t.mono with
  | some m => saturate (clk.mono - m)
  | none => saturate (clk.wall - t.wall)

/-! ## Freshness tracker -/

/-- The function `setts`: the new value of `ts`. -/
def setts (clk : Clock) : Time := now clk

/-- The function `ready`, reading `ts` at clock reading `clk` with flag value `checkTimeout`. -/
def ready (undef : Int) (checkTimeout : Float64) (ts : Time) (clk : Clock) : Bool :=
  decide (since ts clk < secondsToDuration undef checkTimeout)

/-! ## The `/ready` handler -/

/-- The handler registered for `/ready`, given what `ready()` returned: the status codes it
passes to `WriteHeader`, in order. -/
def readyHandler (r : Bool) : List Nat :=
  match r with
  | true => [200]
  | _ => [500]

/-- One request to `/ready` served at clock reading `clk`. -/
def serveReady (undef : Int) (checkTimeout : Float64) (ts : Time) (clk : Clock) : List Nat :=
  readyHandler (ready undef checkTimeout ts clk)

/-! ## The operating system, as the check functions see it -/

/-- The constant `blockSize`. -/
def blockSize : Nat := 1 <<< 9

/-- How a Go call ends: it returns `nil`, returns an error, or panics. -/
inductive Outcome where
  | ok
  | err (e : String)
  | panic (msg : String)
  deriving DecidableEq, Repr

/-- A result of a system call: a value or an error. -/
inductive Sys (α : Type) where
  | val (a : α)
  | fail (e : String)

/-- The calls a check function makes. -/
inductive Call where
  | statfs (path : String)
  | openFile (path : String)
  | seek (offset : Int) (whence : Int)
  | read (len : Nat)
  | close
  deriving DecidableEq, Repr

/-- An open file: what `Seek(0, 2)`, `Seek(off, 0)` and a `Read` of `len` bytes at position `pos`
return. -/
structure OpenFile where
  seekEnd : Sys Int
  seekSet : Int → Sys Int
  read : Int → Nat → Sys Nat

/-- The file system at one moment: what `unix.Statfs` and `os.Open` return for a path. -/
structure OS where
  statfs : String → Option String
  openFile : String → Sys OpenFile

/-- An open regular file of `size` bytes: seeking to the end gives the size, seeking to a
negative offset fails, and a read at or past the end returns `io.EOF`. -/
def regularFile (size : Nat) : OpenFile where
  seekEnd := .val size
  seekSet := fun off => if off < 0 then .fail "invalid argument" else .val off
  read := fun pos len =>
    if len = 0 then .val 0
    else if (size : Int) ≤ pos then .fail "EOF"
    else .val (min len ((size : Int) - pos).toNat)

/-- A file system holding one regular file of `size` bytes at `path`. -/
def singleFile (path : String) (size : Nat) : OS where
  statfs := fun p => if p = path then none else some "no such file or directory"
  openFile := fun p => if p = path then .val (regularFile size) else .fail "no such file or directory"

/-- The function `rand.Int63n`, where `v` is the 63-bit draw of the random source the result is
computed from: it panics (`none`) when `n <= 0` and otherwise returns `v` reduced modulo `n`,
a value in `[0, n)`. -/
def int63n (v : Nat) (n : Int) : Option Int :=
  if n ≤ 0 then none else some ((v : Int) % n)

/-- What a run of a check function did: the calls it made and how it ended. -/
structure Run where
  calls : List Call
  result : Outcome
  deriving DecidableEq, Repr

/-! ## The check functions -/

/-- The function `checkStat`. -/
def checkStat (os : OS) (path : String) : Run :=
  match os.statfs path with
  | some e => ⟨[.statfs path], .err e⟩
  | none => ⟨[.statfs path], .ok⟩

/-- The bound `size & ^(blockSize-1)` that `checkRead` passes to `rand.Int63n`. -/
def offsetBound (size : Int) : Int := and64 size (not64 ((blockSize : Int) - 1))

/-- The function `checkRead`, with `v` the draw of the random source; the deferred `Close` runs
on every path after a successful `Open`, also when `rand.Int63n` panics. -/
def checkRead (os : OS) (v : Nat) (path : String) : Run :=
  match os.openFile path with
  | .fail e => ⟨[.openFile path], .err e⟩
  | .val fh =>
    match fh.seekEnd with
    | .fail e => ⟨[.openFile path, .seek 0 2, .close], .err e⟩
    | .val size =>
      match int63n v (offsetBound size) with
      | none => ⟨[.openFile path, .seek 0 2, .close], .panic "invalid argument to Int63n"⟩
      | some off =>
        match fh.seekSet off with
        | .fail e => ⟨[.openFile path, .seek 0 2, .seek off 0, .close], .err e⟩
        | .val pos =>
          match fh.read pos blockSize with
          | .fail e =>
            ⟨[.openFile path, .seek 0 2, .seek off 0, .read blockSize, .close], .err e⟩
          | .val _ =>
            ⟨[.openFile path, .seek 0 2, .seek off 0, .read blockSize, .close], .ok⟩

/-- The function values the variable `checkfn` can hold. -/
inductive CheckFn where
  | checkStat
  | checkRead
  deriving DecidableEq, Repr

/-- A call `checkfn(path)`. -/
def CheckFn.run (fn : CheckFn) (os : OS) (v : Nat) (path : String) : Run :=
  match fn with
  | .checkStat => Fsreadiness.checkStat os path
  | .checkRead => Fsreadiness.checkRead os v path

/-! ## Start-up in `main` -/

/-- What `main` does during start-up, in order. -/
inductive Effect where
  | fatal (msg : String)
  | listen (addr : String)
  | startServer
  | startLoop
  deriving DecidableEq, Repr

/-- The `switch *checkMode` of `main`: the function bound to `checkfn`, or `none` for the
`default` branch. -/
def selectCheck (checkMode : String) : Option CheckFn :=
  if checkMode = "stat" then some .checkStat
  else if checkMode = "read" then some .checkRead
  else none

/-- The effects of start-up and the value of `checkfn` after it. -/
structure Startup where
  effects : List Effect
  checkfn : Option CheckFn
  deriving DecidableEq, Repr

/-- The start of `main` up to the launch of the two goroutines; `listenErr` is the error of
`net.Listen`, if any. `log.Fatal` ends the process. -/
def mainStartup (checkPath checkMode : String) (listenErr : Option String) : Startup :=
  if checkPath = "" then ⟨[.fatal "Specify -check-path"], none⟩
  else
    match selectCheck checkMode with
    | none => ⟨[.fatal ("Unsupported check: " ++ checkMode)], none⟩
    | some fn =>
      match listenErr with
      | some e => ⟨[.listen ":8080", .fatal e], some fn⟩
      | none => ⟨[.listen ":8080", .startServer, .startLoop], some fn⟩

/-! ## The probe loop -/

/-- The period handed to `time.NewTicker`. -/
def tickerPeriod (undef : Int) (checkInterval : Float64) : Int :=
  secondsToDuration undef checkInterval

/-- Where the probe goroutine is. -/
inductive LoopStatus where
  | running
  | returned
  | panicked
  deriving DecidableEq, Repr

/-- The state the probe goroutine acts on: the variable `ts`, its own status, the number of
calls of `checkfn` so far and the lines it logged. -/
structure LoopState where
  ts : Time
  status : LoopStatus
  checks : Nat
  log : List String
  deriving DecidableEq, Repr

/-- The state in which the probe goroutine enters its `for` loop: `time.NewTicker` panics on a
period that is not positive. -/
def loopStart (undef : Int) (checkInterval : Float64) : LoopState :=
  if 0 < tickerPeriod undef checkInterval then ⟨zeroTime, .running, 0, []⟩
  else ⟨zeroTime, .panicked, 0, []⟩

/-- The case a `select` proceeds with. -/
inductive Case where
  | done
  | tick
  deriving DecidableEq, Repr

/-- The `select` over `ctx.Done()` and `ticker.C`: with one channel ready that case runs, with
both ready one of them is chosen pseudo-randomly (`pickTick`), with none ready it blocks. -/
def selectCase (cancelled tick pickTick : Bool) : Option Case :=
  match cancelled, tick with
  | true, true => if pickTick then some .tick else some .done
  | true, false => some .done
  | false, true => some .tick
  | false, false => none

/-- What the loop meets in one pass: whether `ctx` is cancelled and a tick is pending at the
`select`, the choice of the `select` between two ready cases, and, should the check run, the
file system and random draw it sees and the clocks when it has returned. -/
structure Pass where
  cancelled : Bool
  tick : Bool
  pickTick : Bool
  os : OS
  draw : Nat
  clk : Clock

/-- How the call `checkfn(*checkPath)` ends when it is made in pass `p`. -/
def Pass.outcome (fn : CheckFn) (checkPath : String) (p : Pass) : Outcome :=
  (fn.run p.os p.draw checkPath).result

/-- Whether a call returned, with or without an error, rather than panicked. -/
def Outcome.returned : Outcome → Bool
  | .panic _ => false
  | _ => true

/-- One pass of the `for` loop of the probe goroutine. -/
def loopPass (fn : CheckFn) (checkPath : String) (st : LoopState) (p : Pass) : LoopState :=
  match st.status with
  | .running =>
    match selectCase p.cancelled p.tick p.pickTick with
    | none => st
    | some .done => { st with status := .returned }
    | some .tick =>
      match p.outcome fn checkPath with
      | .panic _ => { st with status := .panicked, checks := st.checks + 1 }
      | .err e => { st with checks := st.checks + 1, log := st.log ++ ["check failed: " ++ e] }
      | .ok => { st with ts := setts p.clk, checks := st.checks + 1 }
  | _ => st

/-- The probe loop over a sequence of passes. -/
def probeLoop (fn : CheckFn) (checkPath : String) (st : LoopState) (ps : List Pass) : LoopState :=
  ps.foldl (loopPass fn checkPath) st

/-! ## Auxiliary facts -/

theorem wrapInt64_le (x : Int) : wrapInt64 x ≤ maxInt64 := by
  unfold wrapInt64 maxInt64
  omega

theorem wrapInt64_ge (x : Int) : minInt64 ≤ wrapInt64 x := by
  unfold wrapInt64 minInt64
  omega

theorem wrapInt64_of_fits (x : Int) (h1 : minInt64 ≤ x) (h2 : x ≤ maxInt64) : wrapInt64 x = x := by
  unfold wrapInt64
  unfold minInt64 at h1
  unfold maxInt64 at h2
  omega

theorem float64ToInt64_of_fits (undef m e : Int) (h1 : minInt64 ≤ truncDyadic m e)
    (h2 : truncDyadic m e ≤ maxInt64) :
    float64ToInt64 undef (.finite m e) = truncDyadic m e := by
  simp only [float64ToInt64]
  exact if_pos ⟨h1, h2⟩

/-- A flag value whose truncation is between `0` and `9223372036` seconds converts to that many
seconds, in nanoseconds, without overflow. -/
theorem secondsToDuration_of_small (undef m e : Int) (h1 : 0 ≤ truncDyadic m e)
    (h2 : truncDyadic m e ≤ 9223372036) :
    secondsToDuration undef (.finite m e) = truncDyadic m e * second := by
  unfold secondsToDuration
  rw [float64ToInt64_of_fits undef m e (by unfold minInt64; omega) (by unfold maxInt64; omega)]
  apply wrapInt64_of_fits
  · unfold minInt64 second; omega
  · unfold maxInt64 second; omega

theorem toRat_nonneg_iff (m e : Int) : 0 ≤ Float64.toRat (.finite m e) ↔ 0 ≤ m := by
  have h2 : (0 : ℚ) < (2 : ℚ) ^ e := zpow_pos (by norm_num) e
  simp only [Float64.toRat]
  constructor
  · intro h
    have : (0 : ℚ) ≤ (m : ℚ) := by
      by_contra hneg
      push_neg at hneg
      have := mul_neg_of_neg_of_pos hneg h2
      linarith
    exact_mod_cast this
  · intro h
    have : (0 : ℚ) ≤ (m : ℚ) := by exact_mod_cast h
    positivity

/-- On a value that is not negative, truncation toward zero is the floor. -/
theorem truncDyadic_eq_floor (m e : Int) (hm : 0 ≤ m) :
    truncDyadic m e = ⌊Float64.toRat (.finite m e)⌋ := by
  unfold truncDyadic Float64.toRat
  by_cases he : 0 ≤ e
  · rw [if_pos he]
    obtain ⟨k, rfl⟩ := Int.eq_ofNat_of_zero_le he
    simp only [Int.toNat_ofNat, zpow_natCast]
    have : (m : ℚ) * (2 : ℚ) ^ k = ((m * 2 ^ k : Int) : ℚ) := by push_cast; ring
    rw [this, Int.floor_intCast]
  · rw [if_neg he]
    push_neg at he
    obtain ⟨k, hk⟩ := Int.eq_ofNat_of_zero_le (show 0 ≤ -e by omega)
    have he2 : e = -(k : Int) := by omega
    subst he2
    simp only [neg_neg, Int.toNat_ofNat, zpow_neg, zpow_natCast]
    rw [Int.tdiv_eq_ediv hm (by positivity)]
    have : (m : ℚ) * ((2 : ℚ) ^ k)⁻¹ = (m : ℚ) / ((2 ^ k : ℕ) : ℚ) := by
      push_cast
      rw [div_eq_mul_inv]
    rw [this, Rat.floor_intCast_div_natCast]
    push_cast
    rfl

/-- After a success recorded at clock reading `c0`, `ready` compares the time elapsed on the
monotonic clock with the whole seconds of the flag value. -/
theorem ready_after_setts (undef m e : Int) (c0 clk : Clock) (h1 : 0 ≤ truncDyadic m e)
    (h2 : truncDyadic m e ≤ 9223372036) (hlater : c0.mono ≤ clk.mono) :
    (ready undef (.finite m e) (setts c0) clk = true ↔
      clk.mono - c0.mono < truncDyadic m e * second) := by
  unfold ready
  rw [secondsToDuration_of_small undef m e h1 h2]
  simp only [since, setts, now, saturate, decide_eq_true_eq]
  unfold minInt64 maxInt64 second
  split_ifs <;> omega

/-- A pass that takes the tick and whose check returns an error changes neither `ts` nor the
status of the loop. -/
theorem loopPass_err (fn : CheckFn) (path : String) (st : LoopState) (p : Pass) (e : String)
    (hrun : st.status = .running)
    (hsel : selectCase p.cancelled p.tick p.pickTick = some .tick)
    (hout : p.outcome fn path = .err e) :
    (loopPass fn path st p).ts = st.ts ∧ (loopPass fn path st p).status = .running := by
  simp [loopPass, hrun, hsel, hout]

/-- A pass that takes the tick and whose check returns `nil` sets `ts` to the current time. -/
theorem loopPass_ok (fn : CheckFn) (path : String) (st : LoopState) (p : Pass)
    (hrun : st.status = .running)
    (hsel : selectCase p.cancelled p.tick p.pickTick = some .tick)
    (hout : p.outcome fn path = .ok) :
    (loopPass fn path st p).ts = now p.clk ∧ (loopPass fn path st p).status = .running := by
  simp [loopPass, hrun, hsel, hout, setts]

/-- Over passes that each take the tick and whose check returns, the loop keeps running and
`ts` is the time of the last pass whose check returned `nil`, or unchanged without one. -/
theorem probeLoop_ts (fn : CheckFn) (path : String) (ps : List Pass) :
    ∀ st : LoopState, st.status = .running →
    (∀ p ∈ ps, selectCase p.cancelled p.tick p.pickTick = some .tick
      ∧ (p.outcome fn path).returned = true) →
    (probeLoop fn path st ps).status = .running
    ∧ (probeLoop fn path st ps).ts
        = match (ps.filter (fun p => decide (p.outcome fn path = .ok))).getLast? with
          | some p => now p.clk
          | none => st.ts := by
  induction ps with
  | nil => intro st hrun _; exact ⟨hrun, rfl⟩
  | cons p ps ih =>
    intro st hrun hall
    have hp := hall p (List.mem_cons_self p ps)
    have hrest : ∀ q ∈ ps, selectCase q.cancelled q.tick q.pickTick = some .tick
        ∧ (q.outcome fn path).returned = true :=
      fun q hq => hall q (List.mem_cons_of_mem p hq)
    have hstep : probeLoop fn path st (p :: ps) = probeLoop fn path (loopPass fn path st p) ps := rfl
    rw [hstep]
    cases hout : p.outcome fn path with
    | panic msg => rw [hout] at hp; exact absurd hp.2 (by simp [Outcome.returned])
    | err e =>
      obtain ⟨hts, hst⟩ := loopPass_err fn path st p e hrun hp.1 hout
      obtain ⟨h1, h2⟩ := ih _ hst hrest
      refine ⟨h1, ?_⟩
      rw [h2, hts, List.filter_cons_of_neg (by simp [hout])]
    | ok =>
      obtain ⟨hts, hst⟩ := loopPass_ok fn path st p hrun hp.1 hout
      obtain ⟨h1, h2⟩ := ih _ hst hrest
      refine ⟨h1, ?_⟩
      rw [h2, hts, List.filter_cons_of_pos (by simp [hout]), List.getLast?_cons]
      cases (ps.filter (fun p => decide (p.outcome fn path = .ok))).getLast? <;> rfl

/-- Once the loop has returned, no further pass changes anything. -/
theorem probeLoop_returned (fn : CheckFn) (path : String) (ps : List Pass) :
    ∀ st : LoopState, st.status = .returned → probeLoop fn path st ps = st := by
  induction ps with
  | nil => intro st _; rfl
  | cons p ps ih =>
    intro st hst
    have hstep : probeLoop fn path st (p :: ps) = probeLoop fn path (loopPass fn path st p) ps := rfl
    have hp : loopPass fn path st p = st := by simp [loopPass, hst]
    rw [hstep, hp]
    exact ih st hst

/-- Masking with `^511` clears the nine low bits. -/
theorem land_block_mask (n : Nat) (h : n < 2 ^ 64) :
    n &&& 18446744073709551104 = n - n % 512 := by
  have hm : (18446744073709551104 : Nat) = 2 ^ 9 * (2 ^ 55 - 1) := by norm_num
  have hn : n - n % 512 = 2 ^ 9 * (n >>> 9) := by
    rw [Nat.shiftRight_eq_div_pow]
    omega
  apply Nat.eq_of_testBit_eq
  intro j
  rw [Nat.testBit_and, hm, hn, Nat.testBit_mul_pow_two, Nat.testBit_mul_pow_two,
    Nat.testBit_two_pow_sub_one, Nat.testBit_shiftRight]
  by_cases h9 : 9 ≤ j
  · by_cases h64 : j < 64
    · have e : 9 + (j - 9) = j := by omega
      have d : j - 9 < 55 := by omega
      simp [h9, e, d]
    · have hlt : n < 2 ^ j := lt_of_lt_of_le h (Nat.pow_le_pow_right (by norm_num) (by omega))
      have e : 9 + (j - 9) = j := by omega
      simp [Nat.testBit_lt_two_pow hlt, e]
  · simp [h9]

/-- The bound passed to `rand.Int63n` is the file size rounded down to a multiple of 512. -/
theorem offsetBound_eq (size : Nat) (h : (size : Int) ≤ maxInt64) :
    offsetBound size = (size : Int) - (size : Int) % 512 := by
  have hmask : toBits64 (not64 ((blockSize : Int) - 1)) = 18446744073709551104 := by decide
  have hbits : toBits64 (size : Int) = size := by
    unfold toBits64
    unfold maxInt64 at h
    omega
  have hlt : size < 2 ^ 64 := by
    unfold maxInt64 at h
    omega
  unfold offsetBound and64
  rw [hmask, hbits, land_block_mask size hlt]
  unfold ofBits64 wrapInt64
  unfold maxInt64 at h
  omega

/-! ## Properties -/

/-- C1. The flag `check-timeout` is a `float64` number of seconds, but `ready` discards its
fraction before comparing. With a timeout of 10.5 s and a success at time 0, `ready` is false
10.2 s later although 10.2 s is less than the timeout; with a timeout of 0.5 s, `ready` is
false at the very moment of the success. With a timeout of 3 s it is true after 0.5 s and
2.9 s and false after 3.1 s. -/
theorem ready_discards_fraction (undef : Int) :
    ready undef (.finite 21 (-1)) (setts ⟨0, 0⟩) ⟨10200000000, 10200000000⟩ = false
    ∧ ((10200000000 : ℚ) - 0 < Float64.toRat (.finite 21 (-1)) * 1000000000)
    ∧ ready undef (.finite 1 (-1)) (setts ⟨0, 0⟩) ⟨0, 0⟩ = false
    ∧ ((0 : ℚ) - 0 < Float64.toRat (.finite 1 (-1)) * 1000000000)
    ∧ ready undef (.finite 3 0) (setts ⟨0, 0⟩) ⟨500000000, 500000000⟩ = true
    ∧ ready undef (.finite 3 0) (setts ⟨0, 0⟩) ⟨2900000000, 2900000000⟩ = true
    ∧ ready undef (.finite 3 0) (setts ⟨0, 0⟩) ⟨3100000000, 3100000000⟩ = false := by
  have e1 : ∀ (m e : Int) (c0 clk : Clock), 0 ≤ truncDyadic m e → truncDyadic m e ≤ 9223372036 →
      c0.mono ≤ clk.mono →
      ready undef (.finite m e) (setts c0) clk
        = decide (clk.mono - c0.mono < truncDyadic m e * second) := by
    intro m e c0 clk h1 h2 h3
    rw [Bool.eq_iff_iff, ready_after_setts undef m e c0 clk h1 h2 h3, decide_eq_true_eq]
  refine ⟨?_, ?_, ?_, ?_, ?_, ?_, ?_⟩
  · rw [e1 _ _ _ _ (by decide) (by decide) (by decide)]; decide
  · norm_num [Float64.toRat]
  · rw [e1 _ _ _ _ (by decide) (by decide) (by decide)]; decide
  · norm_num [Float64.toRat]
  · rw [e1 _ _ _ _ (by decide) (by decide) (by decide)]; decide
  · rw [e1 _ _ _ _ (by decide) (by decide) (by decide)]; decide
  · rw [e1 _ _ _ _ (by decide) (by decide) (by decide)]; decide

/-- C2. While `ts` holds the zero `time.Time`, `ready` is false for every flag value
(finite or not, whatever an out-of-range conversion yields) and every clock reading whose
wall clock is at least `2^63 - 1` ns after January 1 of year 1, as every reading at or after
the Unix epoch is: the elapsed time saturates at the largest `time.Duration`, which is below
no `int64` threshold. -/
theorem ready_false_before_first_success (undef : Int) (checkTimeout : Float64) (clk : Clock)
    (hclk : maxInt64 ≤ clk.wall - zeroTime.wall) :
    ready undef checkTimeout zeroTime clk = false := by
  have hle : secondsToDuration undef checkTimeout ≤ maxInt64 := wrapInt64_le _
  have hs : since zeroTime clk = maxInt64 := by
    simp only [since, zeroTime, saturate] at hclk ⊢
    unfold minInt64 maxInt64 at *
    split_ifs <;> omega
  unfold ready
  rw [hs, decide_eq_false_iff_not]
  omega

theorem ready_false_before_first_success_witness :
    maxInt64 ≤ (⟨0, 0⟩ : Clock).wall - zeroTime.wall
    ∧ ready 0 (.finite 10 0) zeroTime ⟨0, 0⟩ = false :=
  ⟨by decide, ready_false_before_first_success 0 (.finite 10 0) ⟨0, 0⟩ (by decide)⟩

/-- C3. A request to `/ready` writes exactly one status: 200 when `ready()` returns true at
that moment and 500 when it returns false; nothing else is written. -/
theorem serveReady_status (undef : Int) (checkTimeout : Float64) (ts : Time) (clk : Clock) :
    serveReady undef checkTimeout ts clk
        = (if ready undef checkTimeout ts clk = true then [200] else [500])
    ∧ (serveReady undef checkTimeout ts clk = [200] ∨ serveReady undef checkTimeout ts clk = [500]) := by
  unfold serveReady
  cases ready undef checkTimeout ts clk <;> simp [readyHandler]

/-- C10. For a `check-interval` value `c = m * 2 ^ e` with `0 ≤ c < 2^63 / 10^9`, the ticker
period is `⌊c⌋` seconds; it is positive, so that `time.NewTicker` does not panic and the loop
runs, exactly when `1 ≤ c`, and it is zero when `c < 1`. -/
theorem tickerPeriod_whole_seconds (undef m e : Int)
    (h0 : 0 ≤ Float64.toRat (.finite m e))
    (h1 : Float64.toRat (.finite m e) < 2 ^ 63 / 10 ^ 9) :
    tickerPeriod undef (.finite m e) = ⌊Float64.toRat (.finite m e)⌋ * second
    ∧ (0 < tickerPeriod undef (.finite m e) ↔ 1 ≤ Float64.toRat (.finite m e))
    ∧ ((loopStart undef (.finite m e)).status = .running ↔ 1 ≤ Float64.toRat (.finite m e))
    ∧ (Float64.toRat (.finite m e) < 1 → tickerPeriod undef (.finite m e) = 0) := by
  have hm : 0 ≤ m := (toRat_nonneg_iff m e).mp h0
  have hfl := truncDyadic_eq_floor m e hm
  have hf0 : 0 ≤ ⌊Float64.toRat (.finite m e)⌋ := Int.floor_nonneg.mpr h0
  have hf1 : ⌊Float64.toRat (.finite m e)⌋ ≤ 9223372036 := by
    have : ⌊Float64.toRat (.finite m e)⌋ < 9223372037 := by
      rw [Int.floor_lt]
      refine lt_of_lt_of_le h1 ?_
      norm_num
    omega
  have hp : tickerPeriod undef (.finite m e) = ⌊Float64.toRat (.finite m e)⌋ * second := by
    unfold tickerPeriod
    rw [secondsToDuration_of_small undef m e (by omega) (by omega), hfl]
  have hpos : 0 < tickerPeriod undef (.finite m e) ↔ 1 ≤ Float64.toRat (.finite m e) := by
    rw [hp]
    have : (1 : ℚ) ≤ Float64.toRat (.finite m e) ↔ 1 ≤ ⌊Float64.toRat (.finite m e)⌋ := by
      rw [Int.le_floor]; simp
    rw [this]
    unfold second
    omega
  refine ⟨hp, hpos, ?_, ?_⟩
  · rw [← hpos]
    unfold loopStart
    split_ifs with h <;> simp [h]
  · intro hlt
    have : ¬ 0 < tickerPeriod undef (.finite m e) := by
      rw [hpos]; exact not_le.mpr hlt
    rw [hp] at this ⊢
    unfold second at this ⊢
    omega

theorem tickerPeriod_whole_seconds_witness :
    0 ≤ Float64.toRat (.finite 1 (-1))
    ∧ Float64.toRat (.finite 1 (-1)) < 2 ^ 63 / 10 ^ 9
    ∧ tickerPeriod 0 (.finite 1 (-1)) = 0 :=
  have h0 : 0 ≤ Float64.toRat (.finite 1 (-1)) := by norm_num [Float64.toRat]
  have h1 : Float64.toRat (.finite 1 (-1)) < 2 ^ 63 / 10 ^ 9 := by norm_num [Float64.toRat]
  ⟨h0, h1, (tickerPeriod_whole_seconds 0 1 (-1) h0 h1).2.2.2 (by norm_num [Float64.toRat])⟩

/-- C4. In a pass of the probe loop that runs the check: when the check returns an error,
`ts` afterwards equals `ts` before and the loop is still running; when it returns `nil`, `ts`
is the current time. Hence over every sequence of such passes the loop is still running and
`ts` is the time of the last pass whose check succeeded, or its initial value without one. -/
theorem probeLoop_keeps_last_success (fn : CheckFn) (path : String) (st : LoopState)
    (ps : List Pass) (hrun : st.status = .running)
    (hprobe : ∀ p ∈ ps, selectCase p.cancelled p.tick p.pickTick = some .tick
      ∧ (p.outcome fn path).returned = true) :
    (∀ (p : Pass) (e : String), selectCase p.cancelled p.tick p.pickTick = some .tick →
        p.outcome fn path = .err e →
        (loopPass fn path st p).ts = st.ts ∧ (loopPass fn path st p).status = .running)
    ∧ (∀ p : Pass, selectCase p.cancelled p.tick p.pickTick = some .tick →
        p.outcome fn path = .ok →
        (loopPass fn path st p).ts = now p.clk ∧ (loopPass fn path st p).status = .running)
    ∧ (probeLoop fn path st ps).status = .running
    ∧ (probeLoop fn path st ps).ts
        = match (ps.filter (fun p => decide (p.outcome fn path = .ok))).getLast? with
          | some p => now p.clk
          | none => st.ts :=
  ⟨fun p e hsel hout => loopPass_err fn path st p e hrun hsel hout,
   fun p hsel hout => loopPass_ok fn path st p hrun hsel hout,
   probeLoop_ts fn path ps st hrun hprobe⟩

theorem probeLoop_keeps_last_success_witness :
    (probeLoop .checkStat "f" ⟨zeroTime, .running, 0, []⟩
        [⟨false, true, false, singleFile "f" 0, 0, ⟨5, 5⟩⟩,
         ⟨false, true, false, singleFile "g" 0, 0, ⟨9, 9⟩⟩]).ts = now ⟨5, 5⟩ :=
  (probeLoop_keeps_last_success .checkStat "f" ⟨zeroTime, .running, 0, []⟩
    [⟨false, true, false, singleFile "f" 0, 0, ⟨5, 5⟩⟩,
     ⟨false, true, false, singleFile "g" 0, 0, ⟨9, 9⟩⟩] rfl (by decide)).2.2.2

/-- C5. On an existing, openable file of size 0 `checkRead` does not return an error: the bound
it passes to `rand.Int63n` is `0 & ^511 = 0`, which is not positive, so `rand.Int63n` panics,
whatever the random source draws. -/
theorem checkRead_empty_file_panics (v : Nat) (path : String) :
    offsetBound 0 = 0
    ∧ int63n v (offsetBound 0) = none
    ∧ checkRead (singleFile path 0) v path
        = ⟨[.openFile path, .seek 0 2, .close], .panic "invalid argument to Int63n"⟩ := by
  have h0 : offsetBound 0 = 0 := by decide
  refine ⟨h0, ?_, ?_⟩
  · simp [h0, int63n]
  · simp [checkRead, singleFile, regularFile, h0, int63n]

/-- C6. The offset `checkRead` seeks to need not be a multiple of 512, and the block read
there need not lie within the file: the mask is applied to the bound of `rand.Int63n`, not to
its result. On a file of 1024 bytes with draw 777 it seeks to 777, with `777 + 512 > 1024`;
on a file of exactly 512 bytes with draw 100 it seeks to 100, not to 0. -/
theorem checkRead_offset_not_aligned :
    checkRead (singleFile "f" 1024) 777 "f"
        = ⟨[.openFile "f", .seek 0 2, .seek 777 0, .read 512, .close], .ok⟩
    ∧ ¬ ((512 : Int) ∣ 777)
    ∧ ¬ ((777 : Int) + 512 ≤ 1024)
    ∧ checkRead (singleFile "f" 512) 100 "f"
        = ⟨[.openFile "f", .seek 0 2, .seek 100 0, .read 512, .close], .ok⟩
    ∧ ¬ ((100 : Int) = 0) := by
  decide

/-- C7. Start-up ends in a fatal error with nothing done before it (no listener bound, no
server or probe loop started) exactly when the check path is empty or the check mode is
neither `stat` nor `read`; otherwise `checkfn` is `checkStat` for mode `stat` and `checkRead`
for mode `read`, and the first thing done is to bind the listener. -/
theorem mainStartup_fatal_iff (checkPath checkMode : String) (listenErr : Option String) :
    ((∃ msg, (mainStartup checkPath checkMode listenErr).effects = [.fatal msg])
        ↔ (checkPath = "" ∨ (checkMode ≠ "stat" ∧ checkMode ≠ "read")))
    ∧ (mainStartup checkPath checkMode listenErr).checkfn
        = (if checkPath = "" then none
           else if checkMode = "stat" then some CheckFn.checkStat
           else if checkMode = "read" then some CheckFn.checkRead
           else none)
    ∧ ((mainStartup checkPath checkMode listenErr).effects.head? = some (.listen ":8080")
        ↔ ¬ (checkPath = "" ∨ (checkMode ≠ "stat" ∧ checkMode ≠ "read"))) := by
  unfold mainStartup selectCheck
  by_cases hp : checkPath = ""
  · simp [hp]
  · by_cases hs : checkMode = "stat"
    · cases listenErr <;> simp [hp, hs]
    · by_cases hr : checkMode = "read"
      · cases listenErr <;> simp [hp, hr]
      · simp [hp, hs, hr]

/-- C8 fails: with the context cancelled and a tick pending at the same `select`, the `select`
may take the tick, and the loop then calls the check function, records the success and keeps
running. -/
theorem late_probe_after_cancel :
    (loopPass .checkStat "f" ⟨zeroTime, .running, 0, []⟩
        ⟨true, true, true, singleFile "f" 0, 0, ⟨5, 5⟩⟩)
      = ⟨now ⟨5, 5⟩, .running, 1, []⟩ := by
  decide

/-- C8, amended. At a `select` reached with the context cancelled: without a pending tick the
loop returns and the check function is not called; with a pending tick the `select` takes
either case, so the loop either returns without a call, or calls the check function exactly
once more and, when that call returns, keeps running: a call that returns `nil` sets `ts` to
the current time, a call that returns an error is logged and leaves `ts` unchanged; and once
the loop has returned no later pass calls the check function or changes anything. -/
theorem loop_after_cancel (fn : CheckFn) (path : String) (st : LoopState) (p : Pass)
    (hrun : st.status = .running) (hc : p.cancelled = true) :
    (p.tick = false → loopPass fn path st p = ⟨st.ts, .returned, st.checks, st.log⟩)
    ∧ (p.tick = true → p.pickTick = false →
        loopPass fn path st p = ⟨st.ts, .returned, st.checks, st.log⟩)
    ∧ (p.tick = true → p.pickTick = true → p.outcome fn path = .ok →
        loopPass fn path st p = ⟨now p.clk, .running, st.checks + 1, st.log⟩)
    ∧ (p.tick = true → p.pickTick = true → ∀ e : String, p.outcome fn path = .err e →
        loopPass fn path st p
          = ⟨st.ts, .running, st.checks + 1, st.log ++ ["check failed: " ++ e]⟩)
    ∧ (p.tick = true → p.pickTick = true → (loopPass fn path st p).checks = st.checks + 1)
    ∧ (∀ ps : List Pass,
        probeLoop fn path ⟨st.ts, .returned, st.checks, st.log⟩ ps
          = ⟨st.ts, .returned, st.checks, st.log⟩) := by
  obtain ⟨ts, status, checks, log⟩ := st
  simp only at hrun
  subst hrun
  refine ⟨?_, ?_, ?_, ?_, ?_, ?_⟩
  · intro ht
    simp [loopPass, hc, ht, selectCase]
  · intro ht hk
    simp [loopPass, hc, ht, hk, selectCase]
  · intro ht hk hout
    simp [loopPass, hc, ht, hk, hout, selectCase, setts]
  · intro ht hk e hout
    simp [loopPass, hc, ht, hk, hout, selectCase]
  · intro ht hk
    simp only [loopPass, hc, ht, hk, selectCase, if_true]
    cases p.outcome fn path <;> rfl
  · intro ps
    exact probeLoop_returned fn path ps _ rfl

/-- An instance of `loop_after_cancel`: a cancelled loop without a pending tick returns at
once, and with a pending tick that the `select` takes it probes, records the success and keeps
running. -/
theorem loop_after_cancel_witness :
    (loopPass .checkStat "f" ⟨zeroTime, .running, 0, []⟩
        ⟨true, false, true, singleFile "f" 0, 0, ⟨5, 5⟩⟩)
      = ⟨zeroTime, .returned, 0, []⟩
    ∧ (loopPass .checkStat "f" ⟨zeroTime, .running, 0, []⟩
        ⟨true, true, true, singleFile "f" 0, 0, ⟨7, 7⟩⟩)
      = ⟨now ⟨7, 7⟩, .running, 1, []⟩ :=
  ⟨(loop_after_cancel .checkStat "f" ⟨zeroTime, .running, 0, []⟩
      ⟨true, false, true, singleFile "f" 0, 0, ⟨5, 5⟩⟩ rfl rfl).1 rfl,
   (loop_after_cancel .checkStat "f" ⟨zeroTime, .running, 0, []⟩
      ⟨true, true, true, singleFile "f" 0, 0, ⟨7, 7⟩⟩ rfl rfl).2.2.1 rfl rfl (by decide)⟩

end Fsreadiness
